import Mathlib

/-!
# Verification of the Redis message-batching coordinator and stop gate

Shallow embedding of `src/mastra/processors/redis-batching-processor.ts`
(`RedisBatchingProcessor`) and `src/mastra/processors/redis-stop-processor.ts`
(`RedisStopProcessor`).

Modelling conventions:
* The shared Redis store is a value of type `Store`: an association list for
  string keys, one for list keys, and one for the per-key TTL (PTTL, in ms).
  Within one TTL period no expiry fires, so TTLs are recorded but never
  trigger deletion — faithful to Redis behaviour inside a single window.
* The JSON round-trip of batch entries (`JSON.stringify` on `rPush`,
  `JSON.parse` on `lIndex`/`lRange`) is the identity on the records involved,
  so list keys hold `BatchedMessage` values directly.
* Time (`Date.now()`) is an explicit `Nat` parameter (milliseconds); `sleep`
  advances it.  `abort` (which never returns in TS) becomes the
  `ProcResult.aborted` outcome; a thrown error becomes `ProcResult.threw`.
* Every store operation the code performs is also recorded in an operation
  trace (`List StoreOp`), so that "performs no store operation" and
  "append happens before the lock attempt" are statable.
* JS object spread on metadata is modelled by `oset` on an association list
  (replace in place when the key exists, append otherwise), and property
  access by `oget` (first match).
-/

/-- A metadata value as it appears in message `content.metadata` objects. -/
inductive MetaVal where
  | str (s : String)
  | boolV (b : Bool)
  | natV (n : Nat)
  | strList (l : List String)
deriving DecidableEq, Repr

/-- A JS object (string-keyed record), as an ordered association list. -/
abbrev Obj := List (String × MetaVal)

/-- JS property read `o.k`: first binding wins (JS objects have unique keys;
`oset` preserves that). -/
def oget (l : Obj) (k : String) : Option MetaVal :=
  (l.find? (fun p => p.1 == k)).map (fun p => p.2)

/-- JS `{...l, k: v}` restricted to one key: replace the binding in place if
`k` is present, append it otherwise (JS spread keeps key order and overrides
the value; JS objects have unique keys, so replacing the first binding is
replacing the binding). -/
def oset : Obj → String → MetaVal → Obj
  | [], k, v => [(k, v)]
  | p :: t, k, v => if p.1 == k then (k, v) :: t else p :: oset t k v

/-- `MastraMessageV2['content']`: the parts list (opaque payload sub-units,
modelled as strings) and the optional metadata object. -/
structure MessageContent where
  parts : List String
  metadata : Option Obj
deriving DecidableEq, Repr

/-- The message envelope fields the two processors read or copy
(`MastraMessageV2`). -/
structure MastraMessageV2 where
  id : String
  role : String
  threadId : Option String
  resourceId : Option String
  content : MessageContent
  createdAt : Nat
deriving DecidableEq, Repr

/-- `BatchedMessage` (redis-batching-processor.ts lines 6-10): the record
serialized into the Redis list. -/
structure BatchedMessage where
  id : String
  content : MessageContent
  createdAt : Nat
deriving DecidableEq, Repr

/-- One atomic Redis operation, as issued by the processors. -/
inductive StoreOp where
  | connect
  | rPush (key : String) (entry : BatchedMessage)
  | pExpire (key : String) (ms : Nat)
  | setNX (key : String) (value : String) (px : Nat)
  | lIndexLast (key : String)
  | lRange (key : String)
  | del (key : String)
  | get (key : String)
deriving DecidableEq, Repr

/-- The shared Redis store: string keys, list keys, and per-key TTL (ms). -/
structure Store where
  strs : List (String × String)
  lists : List (String × List BatchedMessage)
  pttl : List (String × Nat)
deriving DecidableEq, Repr

namespace Store

/-- `GET key` — value of a string key, if present. -/
def getStr (st : Store) (k : String) : Option String :=
  (st.strs.find? (fun p => p.1 == k)).map (fun p => p.2)

/-- Contents of a list key; in Redis an absent list key reads as empty. -/
def getList (st : Store) (k : String) : List BatchedMessage :=
  ((st.lists.find? (fun p => p.1 == k)).map (fun p => p.2)).getD []

/-- A key exists (as any type).  A Redis list key exists iff it is non-empty. -/
def existsKey (st : Store) (k : String) : Bool :=
  (st.getStr k).isSome || !(st.getList k).isEmpty

/-- PTTL of a key, if one has been set. -/
def getPttl (st : Store) (k : String) : Option Nat :=
  (st.pttl.find? (fun p => p.1 == k)).map (fun p => p.2)

/-- Replace-or-append on an association list (unique keys preserved). -/
def assocSet {α : Type} : List (String × α) → String → α → List (String × α)
  | [], k, v => [(k, v)]
  | p :: t, k, v => if p.1 == k then (k, v) :: t else p :: assocSet t k v

/-- Overwrite a string key's value. -/
def setStr (st : Store) (k v : String) : Store :=
  { st with strs := assocSet st.strs k v }

/-- Overwrite a list key's contents. -/
def setList (st : Store) (k : String) (v : List BatchedMessage) : Store :=
  { st with lists := assocSet st.lists k v }

/-- Record a key's TTL. -/
def setPttl (st : Store) (k : String) (ms : Nat) : Store :=
  { st with pttl := assocSet st.pttl k ms }

/-- `RPUSH key entry`: append to the list, creating the key if absent. -/
def rPush (st : Store) (k : String) (e : BatchedMessage) : Store :=
  st.setList k (st.getList k ++ [e])

/-- `PEXPIRE key ms`: refresh the TTL; no-op when the key is absent. -/
def pExpire (st : Store) (k : String) (ms : Nat) : Store :=
  if st.existsKey k then st.setPttl k ms else st

/-- `SET key value PX ms NX`: atomic conditional set — succeeds (returns
`true`, i.e. the reply `'OK'`) only when the key does not already exist,
setting value and TTL; otherwise leaves the store untouched. -/
def setNX (st : Store) (k v : String) (px : Nat) : Bool × Store :=
  if st.existsKey k then (false, st)
  else (true, (st.setStr k v).setPttl k px)

/-- `LINDEX key -1`: the last element of the list, if any. -/
def lIndexLast (st : Store) (k : String) : Option BatchedMessage :=
  (st.getList k).getLast?

/-- `DEL key`: remove the key entirely (value and TTL). -/
def del (st : Store) (k : String) : Store :=
  { strs := st.strs.filter (fun p => p.1 != k),
    lists := st.lists.filter (fun p => p.1 != k),
    pttl := st.pttl.filter (fun p => p.1 != k) }

end Store

/-- Character-wise lowercasing, the semantics of `value.toLowerCase()`
(written without the well-founded recursion of `String.map`, so terms using
it evaluate inside proofs). -/
def strToLower (s : String) : String := ⟨s.data.map Char.toLower⟩

/-- `defaultIsStopped` (redis-stop-processor.ts lines 25-26):
`value !== null && value !== '' && value !== '0' && value.toLowerCase() !== 'false'`.
`GET` of an absent key is `null`, i.e. `none`. -/
def defaultIsStopped : Option String → Bool
  | none => false
  | some v => v != "" && v != "0" && strToLower v != "false"

/-- Outcome of a processor invocation: the returned message list, a
cooperative `abort(reason)` (which never returns in TS), or a thrown error. -/
inductive ProcResult where
  | forward (messages : List MastraMessageV2)
  | aborted (reason : String)
  | threw (err : String)
deriving DecidableEq, Repr

/-- `RedisBatchingProcessorOptions` with the constructor defaults
(lines 52-57): `windowMs = 4_000`, `keyPrefix = 'mastra:input-batch'`.
The Redis URL is connection plumbing and not modelled. -/
structure RedisBatchingProcessorOptions where
  windowMs : Nat := 4000
  keyPrefix : String := "mastra:input-batch"
  userIdResolver : Option (MastraMessageV2 → Option String) := none

/-- `RedisStopProcessorOptions` with the constructor defaults
(lines 41-57): `keyPrefix = 'mastra:input-stop'`,
`this.isStopped = isStopped ?? defaultIsStopped`. -/
structure RedisStopProcessorOptions where
  keyPrefix : String := "mastra:input-stop"
  userIdResolver : Option (MastraMessageV2 → Option String) := none
  isStopped : Option (Option String → Bool) := none

/-- The `as string | undefined` cast on `metadata?.userId`: the value is used
as a string identifier, so a string value passes through and anything else is
out of the type the code asserts. -/
def metaValAsString? : MetaVal → Option String
  | .str s => some s
  | _ => none

/-- `[...messages].reverse().find((message) => message.role === 'user')` —
identical in both processors. -/
def lastUserMessage? (messages : List MastraMessageV2) : Option MastraMessageV2 :=
  messages.reverse.find? (fun m => m.role == "user")

/-- The identifier chain both processors evaluate (batching lines 93-97, stop
lines 80-84): `resolver?.(m) ?? m.threadId ?? m.resourceId ??
(m.content.metadata?.userId as string | undefined)`.  `??` is nullish
coalescing: the first DEFINED candidate wins, even when it is `""`. -/
def userIdChain (userIdResolver : Option (MastraMessageV2 → Option String))
    (m : MastraMessageV2) : Option String :=
  (match userIdResolver with
    | some f => f m
    | none => none).orElse (fun _ =>
  m.threadId.orElse (fun _ =>
  m.resourceId.orElse (fun _ =>
  (m.content.metadata.bind (fun md => oget md "userId")).bind metaValAsString?)))

/-- `buildListKey` (line 208-210). -/
def buildListKey (keyPrefix userId : String) : String :=
  keyPrefix ++ ":" ++ userId

/-- `mergeMessages` (lines 188-206).  `now` is the clock reading at the
moment of the merge (`new Date()`). -/
def mergeMessages (windowMs now : Nat)
    (batchedMessages : List BatchedMessage) (template : MastraMessageV2) :
    MastraMessageV2 :=
  let aggregatedParts := (batchedMessages.map (fun e => e.content.parts)).flatten
  let aggregatedMetadata :=
    oset (oset (oset (template.content.metadata.getD []) "batched" (.boolV true))
        "batchWindowMs" (.natV windowMs))
      "originalMessageIds" (.strList (batchedMessages.map (fun e => e.id)))
  { template with
      id := template.id ++ ":batched",
      createdAt := now,
      content := { template.content with
        parts := aggregatedParts, metadata := some aggregatedMetadata } }

/-- `flushBatch` (lines 182-186): `LRANGE key 0 -1` then `DEL key`. -/
def flushBatch (st : Store) (listKey : String) :
    (List BatchedMessage × Store) × List StoreOp :=
  ((st.getList listKey, st.del listKey), [.lRange listKey, .del listKey])

/-- Lines 133-142 of `processInput`, after a successful flush and lock
release: empty payload returns the input unchanged; otherwise the messages
whose ids match a flushed entry are replaced by the single merged message. -/
def winnerResult (windowMs now : Nat) (messages : List MastraMessageV2)
    (lastUserMessage : MastraMessageV2) (batchedPayload : List BatchedMessage) :
    List MastraMessageV2 :=
  if batchedPayload.isEmpty then messages
  else
    let collapsedMessage := mergeMessages windowMs now batchedPayload lastUserMessage
    let filteredMessages := messages.filter (fun message =>
      !(batchedPayload.any (fun entry => entry.id == message.id)))
    filteredMessages ++ [collapsedMessage]

/-- `awaitQuietWindow` (lines 163-180) run against a store no other
invocation touches meanwhile: poll `LINDEX key -1`; return at once when the
list is empty; return when `remaining = windowMs - (now - last.createdAt)`
is `≤ 0`; otherwise sleep `min(remaining, 250)` and poll again.  Returns the
clock value at which the loop returns, plus the polls issued. -/
def awaitQuietWindow (windowMs : Nat) (st : Store) (listKey : String)
    (now : Nat) : Nat × List StoreOp :=
  match h : st.lIndexLast listKey with
  | none => (now, [.lIndexLast listKey])
  | some lastEntry =>
    let remaining : Int := (windowMs : Int) - ((now : Int) - (lastEntry.createdAt : Int))
    if hr : remaining ≤ 0 then (now, [.lIndexLast listKey])
    else
      let rec_result := awaitQuietWindow windowMs st listKey
        (now + (min remaining 250).toNat)
      (rec_result.1, .lIndexLast listKey :: rec_result.2)
termination_by
  ((match st.lIndexLast listKey with
    | none => (0 : Int)
    | some e => (e.createdAt : Int)) + (windowMs : Int) - (now : Int)).toNat
decreasing_by
  omega

/-- Which store operation (if any) of the leader's `try` block throws.
`failFlush` covers both the `LRANGE` and the list `DEL` of `flushBatch`
(either way the flush has no store effect); `failMerge` models a throw inside
the synchronous `mergeMessages`/filter code after the lock was released. -/
inductive FailPoint where
  | noFail
  | failWait
  | failFlush
  | failLockDel
  | failMerge
deriving DecidableEq, Repr

/-- Lines 128-146 of `RedisBatchingProcessor.processInput`: the `try` block
run by the election winner (quiet-window wait, flush, lock release, merge)
and its `catch`, which deletes the lock key and rethrows.  A throwing store
operation is recorded in the trace but has no store effect. -/
def leaderSection (o : RedisBatchingProcessorOptions) (fp : FailPoint)
    (st : Store) (now : Nat) (messages : List MastraMessageV2)
    (lastUserMessage : MastraMessageV2) (listKey lockKey : String)
    (ops : List StoreOp) : ProcResult × Store × List StoreOp :=
  if fp == .failWait then
    (.threw "quiet-window", st.del lockKey, ops ++ [.lIndexLast listKey, .del lockKey])
  else
    let wq := awaitQuietWindow o.windowMs st listKey now
    let tEnd := wq.1
    let ops := ops ++ wq.2
    if fp == .failFlush then
      (.threw "flush", st.del lockKey, ops ++ [.lRange listKey, .del lockKey])
    else
      let fl := flushBatch st listKey
      let batchedPayload := fl.1.1
      let st := fl.1.2
      let ops := ops ++ fl.2
      if fp == .failLockDel then
        (.threw "lock-del", st.del lockKey, ops ++ [.del lockKey, .del lockKey])
      else
        let st := st.del lockKey
        let ops := ops ++ [.del lockKey]
        if fp == .failMerge then
          (.threw "merge", st.del lockKey, ops ++ [.del lockKey])
        else
          (.forward (winnerResult o.windowMs tEnd messages lastUserMessage batchedPayload),
            st, ops)

/-- `RedisBatchingProcessor.processInput` (lines 73-147), with no concurrent
store activity during the call.  `now` is `Date.now()` at entry; `fp` marks
an injected store failure (`.noFail` for a normal run).  Returns the outcome,
the final store, and the trace of store operations issued. -/
def processInput (o : RedisBatchingProcessorOptions) (fp : FailPoint)
    (st : Store) (now : Nat) (messages : List MastraMessageV2) :
    ProcResult × Store × List StoreOp :=
  if messages.isEmpty then (.forward messages, st, [])
  else
    match lastUserMessage? messages with
    | none => (.forward messages, st, [])
    | some lastUserMessage =>
      let ops0 : List StoreOp := [.connect]
      match userIdChain o.userIdResolver lastUserMessage with
      | none => (.forward messages, st, ops0)
      | some userId =>
        if userId == "" then (.forward messages, st, ops0)
        else
          let listKey := buildListKey o.keyPrefix userId
          let lockKey := listKey ++ ":lock"
          let entry : BatchedMessage :=
            { id := lastUserMessage.id, content := lastUserMessage.content,
              createdAt := now }
          let st := st.rPush listKey entry
          let st := st.pExpire listKey (o.windowMs * 3)
          let sn := st.setNX lockKey "1" (o.windowMs * 3)
          let acquiredLock := sn.1
          let st := sn.2
          let ops := ops0 ++ [.rPush listKey entry, .pExpire listKey (o.windowMs * 3),
            .setNX lockKey "1" (o.windowMs * 3)]
          if !acquiredLock then
            (.aborted "redis-batching:pending", st.pExpire lockKey (o.windowMs * 3),
              ops ++ [.pExpire lockKey (o.windowMs * 3)])
          else
            leaderSection o fp st now messages lastUserMessage listKey lockKey ops

/-- `RedisStopProcessor.processInput` (lines 60-98).  Read-only on the store:
returns the outcome and the trace of store operations issued. -/
def stopProcessInput (o : RedisStopProcessorOptions) (st : Store)
    (messages : List MastraMessageV2) : ProcResult × List StoreOp :=
  if messages.isEmpty then (.forward messages, [])
  else
    match lastUserMessage? messages with
    | none => (.forward messages, [])
    | some lastUserMessage =>
      let ops0 : List StoreOp := [.connect]
      match userIdChain o.userIdResolver lastUserMessage with
      | none => (.forward messages, ops0)
      | some userId =>
        if userId == "" then (.forward messages, ops0)
        else
          let stopKey := o.keyPrefix ++ ":" ++ userId
          let value := st.getStr stopKey
          let ops := ops0 ++ [.get stopKey]
          if (o.isStopped.getD defaultIsStopped) value then
            (.aborted "redis-stop:active", ops)
          else
            (.forward messages, ops)

/-- The election step of one invocation (lines 117-126): the atomic
`SET lockKey '1' PX 3*windowMs NX`, and on failure the `PEXPIRE` refresh of
the existing lock.  This is the only store activity that touches the lock
key between append and outcome, so any interleaving of concurrent
invocations serializes these atomic steps. -/
def electStep (windowMs : Nat) (lockKey : String) (st : Store) : Bool × Store :=
  let sn := st.setNX lockKey "1" (windowMs * 3)
  if !sn.1 then (false, sn.2.pExpire lockKey (windowMs * 3))
  else (true, sn.2)

/-- `n` concurrent invocations' election steps, in serialization order;
returns each invocation's `acquiredLock` outcome and the final store. -/
def runElections (windowMs : Nat) (lockKey : String) : Store → Nat → List Bool × Store
  | st, 0 => ([], st)
  | st, n + 1 =>
    let e := electStep windowMs lockKey st
    let r := runElections windowMs lockKey e.2 n
    (e.1 :: r.1, r.2)

/-- The quiet-window loop of lines 163-180 run against a list that other
invocations may append to meanwhile: `lastAt t` is the `createdAt` of the
list's last entry as `LINDEX key -1` would see it at time `t` (`none` when
the list is empty).  Fuelled because a schedule that appends forever keeps
the loop alive; `none` means the fuel ran out. -/
def awaitQuietWindowSched (windowMs : Nat) (lastAt : Nat → Option Nat) :
    Nat → Nat → Option Nat
  | _, 0 => none
  | now, fuel + 1 =>
    match lastAt now with
    | none => some now
    | some createdAt =>
      let remaining : Int := (windowMs : Int) - ((now : Int) - (createdAt : Int))
      if remaining ≤ 0 then some now
      else awaitQuietWindowSched windowMs lastAt (now + (min remaining 250).toNat) fuel

/-- The tail `createdAt` of an append-only list whose entries arrive at the
given times: at time `t` the last entry is the latest arrival `≤ t`. -/
def tailAt (arrivals : List Nat) (t : Nat) : Option Nat :=
  (arrivals.filter (fun a => decide (a ≤ t))).getLast?

/-- Modelled from the spec: the identifier chain as §4.4 words it — the four
candidates are tried in priority order and "the first NON-EMPTY result wins".
For comparison with `userIdChain`, the chain the code actually evaluates. -/
def specResolveUserId (userIdResolver : Option (MastraMessageV2 → Option String))
    (m : MastraMessageV2) : Option String :=
  (([(match userIdResolver with | some f => f m | none => none),
     m.threadId, m.resourceId,
     (m.content.metadata.bind (fun md => oget md "userId")).bind metaValAsString?].filterMap id).filter
    (fun s => s != "")).head?

/-! ### Concrete values used by the witness theorems -/

/-- An empty store. -/
def emptyStore : Store := { strs := [], lists := [], pttl := [] }

/-- A user message carrying a thread identifier. -/
def userMsg : MastraMessageV2 :=
  { id := "m1", role := "user", threadId := some "t1", resourceId := none,
    content := { parts := ["hello"], metadata := none }, createdAt := 0 }

/-- A second user message on the same thread. -/
def userMsgB : MastraMessageV2 :=
  { id := "m2", role := "user", threadId := some "t1", resourceId := none,
    content := { parts := ["again"], metadata := none }, createdAt := 5 }

/-- An assistant message (no `user` role). -/
def assistantMsg : MastraMessageV2 :=
  { id := "a1", role := "assistant", threadId := some "t1", resourceId := none,
    content := { parts := ["reply"], metadata := none }, createdAt := 1 }

/-- The batch entry `userMsg` produces when appended at time 0. -/
def entryA : BatchedMessage :=
  { id := "m1", content := { parts := ["hello"], metadata := none }, createdAt := 0 }

/-- A batch entry from a message outside the current input. -/
def entryC : BatchedMessage :=
  { id := "mc", content := { parts := ["c"], metadata := none }, createdAt := 2 }

/-- A store in which the lock for thread `t1` (under the default batching
prefix) is already held. -/
def lockedStore : Store :=
  { strs := [("mastra:input-batch:t1:lock", "1")], lists := [],
    pttl := [("mastra:input-batch:t1:lock", 12000)] }

/-- A store in which the stop flag for thread `t1` (under the default stop
prefix) is set to `"1"`. -/
def stopFlagStore : Store :=
  { strs := [("mastra:input-stop:t1", "1")], lists := [], pttl := [] }

/-- A store in which only a DIFFERENT conversation's stop flag (`t2`) is
set; `t1`'s own flag is absent. -/
def otherStopFlagStore : Store :=
  { strs := [("mastra:input-stop:t2", "1")], lists := [], pttl := [] }

/-! ## Association-list and store lemmas -/

theorem find?_assocSet_self {α : Type} (l : List (String × α)) (k : String) (v : α) :
    (Store.assocSet l k v).find? (fun p => p.1 == k) = some (k, v) := by
  induction l with
  | nil => simp [Store.assocSet, List.find?]
  | cons p t ih =>
    by_cases hp : p.1 = k
    · simp [Store.assocSet, hp, List.find?]
    · simp [Store.assocSet, hp, List.find?, ih]

theorem find?_assocSet_ne {α : Type} (l : List (String × α)) (k k' : String) (v : α)
    (h : k' ≠ k) :
    (Store.assocSet l k v).find? (fun p => p.1 == k') = l.find? (fun p => p.1 == k') := by
  induction l with
  | nil =>
    have hkk : (k == k') = false := beq_eq_false_iff_ne.mpr (Ne.symm h)
    simp [Store.assocSet, List.find?, hkk]
  | cons p t ih =>
    simp only [Store.assocSet]
    by_cases hp : p.1 = k
    · rw [if_pos (by simp [hp])]
      have h1 : (k == k') = false := beq_eq_false_iff_ne.mpr (Ne.symm h)
      have h2 : (p.1 == k') = false := beq_eq_false_iff_ne.mpr (by rw [hp]; exact Ne.symm h)
      simp [List.find?, h1, h2]
    · rw [if_neg (by simp [hp])]
      by_cases hp' : p.1 = k'
      · have h1 : (p.1 == k') = true := by simp [hp']
        simp [List.find?, h1]
      · have h1 : (p.1 == k') = false := beq_eq_false_iff_ne.mpr hp'
        simp [List.find?, h1, ih]

theorem find?_filter_ne_self {α : Type} (l : List (String × α)) (k : String) :
    (l.filter (fun p => p.1 != k)).find? (fun p => p.1 == k) = none := by
  induction l with
  | nil => simp
  | cons p t ih =>
    by_cases hp : p.1 = k
    · simp [hp, ih]
    · simp [hp, List.find?, ih]

theorem find?_filter_ne_other {α : Type} (l : List (String × α)) (k k' : String)
    (h : k' ≠ k) :
    (l.filter (fun p => p.1 != k)).find? (fun p => p.1 == k') =
      l.find? (fun p => p.1 == k') := by
  induction l with
  | nil => simp
  | cons p t ih =>
    by_cases hp : p.1 = k
    · have hp' : (p.1 == k') = false :=
        beq_eq_false_iff_ne.mpr (by rw [hp]; exact Ne.symm h)
      have h2 : (k == k') = false := beq_eq_false_iff_ne.mpr (Ne.symm h)
      simp [List.filter_cons, hp, List.find?, hp', h2, ih]
    · by_cases hp' : p.1 = k'
      · have h1 : (p.1 == k') = true := by simp [hp']
        simp [List.filter_cons, hp, List.find?, h1]
      · have h1 : (p.1 == k') = false := beq_eq_false_iff_ne.mpr hp'
        simp [List.filter_cons, hp, List.find?, h1, ih]

namespace Store

theorem getStr_setStr_self (st : Store) (k v : String) :
    (st.setStr k v).getStr k = some v := by
  simp [getStr, setStr, find?_assocSet_self]

theorem getStr_setStr_ne (st : Store) (k k' v : String) (h : k' ≠ k) :
    (st.setStr k v).getStr k' = st.getStr k' := by
  simp [getStr, setStr, find?_assocSet_ne _ _ _ _ h]

theorem getList_setList_self (st : Store) (k : String) (v : List BatchedMessage) :
    (st.setList k v).getList k = v := by
  simp [getList, setList, find?_assocSet_self]

theorem getList_setList_ne (st : Store) (k k' : String) (v : List BatchedMessage)
    (h : k' ≠ k) : (st.setList k v).getList k' = st.getList k' := by
  simp [getList, setList, find?_assocSet_ne _ _ _ _ h]

theorem getPttl_setPttl_self (st : Store) (k : String) (ms : Nat) :
    (st.setPttl k ms).getPttl k = some ms := by
  simp [getPttl, setPttl, find?_assocSet_self]

theorem getPttl_setPttl_ne (st : Store) (k k' : String) (ms : Nat) (h : k' ≠ k) :
    (st.setPttl k ms).getPttl k' = st.getPttl k' := by
  simp [getPttl, setPttl, find?_assocSet_ne _ _ _ _ h]

theorem getStr_setList (st : Store) (k k' : String) (v : List BatchedMessage) :
    (st.setList k v).getStr k' = st.getStr k' := rfl

theorem getStr_setPttl (st : Store) (k k' : String) (ms : Nat) :
    (st.setPttl k ms).getStr k' = st.getStr k' := rfl

theorem getList_setStr (st : Store) (k k' v : String) :
    (st.setStr k v).getList k' = st.getList k' := rfl

theorem getList_setPttl (st : Store) (k k' : String) (ms : Nat) :
    (st.setPttl k ms).getList k' = st.getList k' := rfl

theorem getPttl_setStr (st : Store) (k k' v : String) :
    (st.setStr k v).getPttl k' = st.getPttl k' := rfl

theorem getPttl_setList (st : Store) (k k' : String) (v : List BatchedMessage) :
    (st.setList k v).getPttl k' = st.getPttl k' := rfl

theorem getStr_del_self (st : Store) (k : String) : (st.del k).getStr k = none := by
  simp [getStr, del, find?_filter_ne_self]

theorem getStr_del_ne (st : Store) (k k' : String) (h : k' ≠ k) :
    (st.del k).getStr k' = st.getStr k' := by
  simp [getStr, del, find?_filter_ne_other _ _ _ h]

theorem getList_del_self (st : Store) (k : String) : (st.del k).getList k = [] := by
  have h : (st.lists.filter (fun p => p.1 != k)).find? (fun p => p.1 == k) = none :=
    find?_filter_ne_self st.lists k
  simp only [getList, del]
  rw [h]
  rfl

theorem getList_del_ne (st : Store) (k k' : String) (h : k' ≠ k) :
    (st.del k).getList k' = st.getList k' := by
  simp [getList, del, find?_filter_ne_other _ _ _ h]

theorem getPttl_del_ne (st : Store) (k k' : String) (h : k' ≠ k) :
    (st.del k).getPttl k' = st.getPttl k' := by
  simp [getPttl, del, find?_filter_ne_other _ _ _ h]

theorem getStr_pExpire (st : Store) (k k' : String) (ms : Nat) :
    (st.pExpire k ms).getStr k' = st.getStr k' := by
  unfold pExpire; split <;> rfl

theorem getList_pExpire (st : Store) (k k' : String) (ms : Nat) :
    (st.pExpire k ms).getList k' = st.getList k' := by
  unfold pExpire; split <;> rfl

theorem existsKey_pExpire (st : Store) (k k' : String) (ms : Nat) :
    (st.pExpire k ms).existsKey k' = st.existsKey k' := by
  simp [existsKey, getStr_pExpire, getList_pExpire]

theorem getPttl_pExpire_self (st : Store) (k : String) (ms : Nat)
    (h : st.existsKey k = true) : (st.pExpire k ms).getPttl k = some ms := by
  simp [pExpire, h, getPttl_setPttl_self]

theorem getPttl_pExpire_ne (st : Store) (k k' : String) (ms : Nat) (h : k' ≠ k) :
    (st.pExpire k ms).getPttl k' = st.getPttl k' := by
  unfold pExpire; split
  · exact getPttl_setPttl_ne _ _ _ _ h
  · rfl

theorem getList_rPush_self (st : Store) (k : String) (e : BatchedMessage) :
    (st.rPush k e).getList k = st.getList k ++ [e] := by
  simp [rPush, getList_setList_self]

theorem getStr_rPush (st : Store) (k k' : String) (e : BatchedMessage) :
    (st.rPush k e).getStr k' = st.getStr k' := rfl

theorem getPttl_rPush (st : Store) (k k' : String) (e : BatchedMessage) :
    (st.rPush k e).getPttl k' = st.getPttl k' := rfl

theorem existsKey_of_getStr (st : Store) (k v : String) (h : st.getStr k = some v) :
    st.existsKey k = true := by
  simp [existsKey, h]

end Store

/-- A list key never coincides with its own lock key. -/
theorem key_ne_lock (k : String) : k ≠ k ++ ":lock" := by
  intro h
  have := congrArg String.length h
  simp [String.length_append] at this
  exact absurd this (by decide)

/-- `oget` after `oset` at the written key. -/
theorem oget_oset_self (l : Obj) (k : String) (v : MetaVal) :
    oget (oset l k v) k = some v := by
  induction l with
  | nil => simp [oset, oget, List.find?]
  | cons p t ih =>
    by_cases hp : p.1 = k
    · simp [oset, hp, oget, List.find?]
    · simp only [oset, oget, List.find?] at ih ⊢
      simp [hp, ih]

/-- `oget` after `oset` at a different key. -/
theorem oget_oset_ne (l : Obj) (k k' : String) (v : MetaVal) (h : k' ≠ k) :
    oget (oset l k v) k' = oget l k' := by
  induction l with
  | nil =>
    have hkk : (k == k') = false := beq_eq_false_iff_ne.mpr (Ne.symm h)
    simp [oset, oget, List.find?, hkk]
  | cons p t ih =>
    simp only [oset]
    by_cases hp : p.1 = k
    · rw [if_pos (by simp [hp])]
      have h1 : (k == k') = false := beq_eq_false_iff_ne.mpr (Ne.symm h)
      have h2 : (p.1 == k') = false := beq_eq_false_iff_ne.mpr (by rw [hp]; exact Ne.symm h)
      simp [oget, List.find?, h1, h2]
    · rw [if_neg (by simp [hp])]
      by_cases hp' : p.1 = k'
      · have h1 : (p.1 == k') = true := by simp [hp']
        simp [oget, List.find?, h1]
      · have h1 : (p.1 == k') = false := beq_eq_false_iff_ne.mpr hp'
        simp only [oget, List.find?, h1] at ih ⊢
        exact ih

/-! ## Claims -/

/-- A message list with a last user message is non-empty. -/
theorem isEmpty_false_of_lastUser {messages : List MastraMessageV2}
    {u : MastraMessageV2} (hu : lastUserMessage? messages = some u) :
    messages.isEmpty = false := by
  cases messages with
  | nil => simp [lastUserMessage?] at hu
  | cons m t => rfl

/-- Every leader-section branch only appends to the trace it is given. -/
theorem leaderSection_ops_prefix (o : RedisBatchingProcessorOptions)
    (fp : FailPoint) (st : Store) (now : Nat) (messages : List MastraMessageV2)
    (u : MastraMessageV2) (listKey lockKey : String) (ops : List StoreOp) :
    ∃ rest, (leaderSection o fp st now messages u listKey lockKey ops).2.2 =
      ops ++ rest := by
  unfold leaderSection
  split
  · exact ⟨[.lIndexLast listKey, .del lockKey], rfl⟩
  · split
    · exact ⟨(awaitQuietWindow o.windowMs st listKey now).2 ++
        [.lRange listKey, .del lockKey], by simp⟩
    · split
      · exact ⟨(awaitQuietWindow o.windowMs st listKey now).2 ++
          ((flushBatch st listKey).2 ++ [.del lockKey, .del lockKey]), by simp⟩
      · split
        · exact ⟨(awaitQuietWindow o.windowMs st listKey now).2 ++
            ((flushBatch st listKey).2 ++ ([.del lockKey] ++ [.del lockKey])), by simp⟩
        · exact ⟨(awaitQuietWindow o.windowMs st listKey now).2 ++
            ((flushBatch st listKey).2 ++ [.del lockKey]), by simp⟩

/-- `rPush` makes its key exist. -/
theorem existsKey_rPush_self (st : Store) (k : String) (e : BatchedMessage) :
    (st.rPush k e).existsKey k = true := by
  simp [Store.existsKey, Store.rPush, Store.getList_setList_self]

/-- `rPush` on another key does not change existence. -/
theorem existsKey_rPush_ne (st : Store) (k k' : String) (e : BatchedMessage)
    (h : k' ≠ k) : (st.rPush k e).existsKey k' = st.existsKey k' := by
  simp [Store.existsKey, Store.rPush, Store.getList_setList_ne _ _ _ _ h,
    Store.getStr_setList]


/-- C9: the default stop predicate judges a stored flag "stopped" exactly
when a value is present, non-empty, not `"0"`, and not `"false"`
case-insensitively; and the gate's decision is tied to the resolved
conversation's OWN flag: when that flag is absent or not judged stopped the
input passes through unchanged (whatever other conversations' flags hold),
and when it is judged stopped the gate aborts. -/
theorem stop_predicate_and_passthrough :
    (∀ v : Option String,
      defaultIsStopped v = true ↔
        ∃ s, v = some s ∧ s ≠ "" ∧ s ≠ "0" ∧ strToLower s ≠ "false") ∧
    (∀ (o : RedisStopProcessorOptions) (st : Store)
       (messages : List MastraMessageV2) (u : MastraMessageV2) (userId : String),
      o.isStopped = none →
      lastUserMessage? messages = some u →
      userIdChain o.userIdResolver u = some userId →
      userId ≠ "" →
      (defaultIsStopped (st.getStr (o.keyPrefix ++ ":" ++ userId)) = false →
        stopProcessInput o st messages =
          (.forward messages, [.connect, .get (o.keyPrefix ++ ":" ++ userId)])) ∧
      (defaultIsStopped (st.getStr (o.keyPrefix ++ ":" ++ userId)) = true →
        (stopProcessInput o st messages).1 = .aborted "redis-stop:active")) := by
  constructor
  · intro v
    cases v with
    | none => simp [defaultIsStopped]
    | some s => simp [defaultIsStopped, bne_iff_ne, and_assoc]
  · intro o st messages u userId h0 hu hid hne
    have hfalse : (userId == "") = false := beq_eq_false_iff_ne.mpr hne
    have hemp := isEmpty_false_of_lastUser hu
    constructor
    · intro hflag
      simp [stopProcessInput, hemp, hu, hid, hfalse, h0, hflag]
    · intro hflag
      simp [stopProcessInput, hemp, hu, hid, hfalse, h0, hflag]

/-- C9 witness: a message on `t1` with only `t2`'s flag set passes through
unchanged; with `t1`'s own flag set to `"1"` the gate aborts. -/
theorem stop_predicate_and_passthrough_witness :
    stopProcessInput {} otherStopFlagStore [userMsg] =
      (.forward [userMsg], [.connect, .get ("mastra:input-stop" ++ ":" ++ "t1")]) ∧
    (stopProcessInput {} stopFlagStore [userMsg]).1 = .aborted "redis-stop:active" :=
  ⟨(stop_predicate_and_passthrough.2 {} otherStopFlagStore [userMsg] userMsg "t1"
      rfl rfl rfl (by decide)).1 (by decide),
   (stop_predicate_and_passthrough.2 {} stopFlagStore [userMsg] userMsg "t1"
      rfl rfl rfl (by decide)).2 (by decide)⟩

/-- C6: for every non-empty batch and template, the merged message's parts
are the concatenation of the entries' parts in list order; its id is the
template id with the `:batched` suffix; its timestamp is the merge-time
clock; its metadata extends the template metadata with `batched = true`, the
window duration, and the source entry ids (all other metadata keys are
unchanged); and the remaining envelope fields are copied from the template.
Mutation of the inputs is impossible in this pure embedding; the TS code
builds fresh objects with spreads, which this definition mirrors. -/
theorem merge_messages_spec (w now : Nat) (batch : List BatchedMessage)
    (template : MastraMessageV2) (hne : batch ≠ []) :
    (mergeMessages w now batch template).content.parts =
        (batch.map (fun e => e.content.parts)).flatten ∧
    (mergeMessages w now batch template).id = template.id ++ ":batched" ∧
    (mergeMessages w now batch template).createdAt = now ∧
    (mergeMessages w now batch template).role = template.role ∧
    (mergeMessages w now batch template).threadId = template.threadId ∧
    (mergeMessages w now batch template).resourceId = template.resourceId ∧
    ∃ md, (mergeMessages w now batch template).content.metadata = some md ∧
      oget md "batched" = some (.boolV true) ∧
      oget md "batchWindowMs" = some (.natV w) ∧
      oget md "originalMessageIds" = some (.strList (batch.map (fun e => e.id))) ∧
      ∀ k, k ≠ "batched" → k ≠ "batchWindowMs" → k ≠ "originalMessageIds" →
        oget md k = oget (template.content.metadata.getD []) k := by
  refine ⟨rfl, rfl, rfl, rfl, rfl, rfl, _, rfl, ?_, ?_, ?_, ?_⟩
  · rw [oget_oset_ne _ _ _ _ (by decide), oget_oset_ne _ _ _ _ (by decide),
      oget_oset_self]
  · rw [oget_oset_ne _ _ _ _ (by decide), oget_oset_self]
  · rw [oget_oset_self]
  · intro k h1 h2 h3
    rw [oget_oset_ne _ _ _ _ h3, oget_oset_ne _ _ _ _ h2, oget_oset_ne _ _ _ _ h1]

/-- C6 witness. -/
theorem merge_messages_spec_witness :
    (mergeMessages 4000 99
        [{ id := "a", content := { parts := ["p1"], metadata := none }, createdAt := 0 },
         { id := "b", content := { parts := ["p2", "p3"], metadata := none }, createdAt := 1 }]
        { id := "b", role := "user", threadId := some "t", resourceId := none,
          content := { parts := ["p2", "p3"],
                       metadata := some [("userId", .str "u"), ("batched", .boolV false)] },
          createdAt := 7 }).content.parts = ["p1", "p2", "p3"] ∧
    (mergeMessages 4000 99
        [{ id := "a", content := { parts := ["p1"], metadata := none }, createdAt := 0 },
         { id := "b", content := { parts := ["p2", "p3"], metadata := none }, createdAt := 1 }]
        { id := "b", role := "user", threadId := some "t", resourceId := none,
          content := { parts := ["p2", "p3"],
                       metadata := some [("userId", .str "u"), ("batched", .boolV false)] },
          createdAt := 7 }).id = "b:batched" := by
  have h := merge_messages_spec 4000 99
    [{ id := "a", content := { parts := ["p1"], metadata := none }, createdAt := 0 },
     { id := "b", content := { parts := ["p2", "p3"], metadata := none }, createdAt := 1 }]
    { id := "b", role := "user", threadId := some "t", resourceId := none,
      content := { parts := ["p2", "p3"],
                   metadata := some [("userId", .str "u"), ("batched", .boolV false)] },
      createdAt := 7 }
    (by decide)
  exact ⟨h.1.trans (by decide), h.2.1.trans rfl⟩

/-- C2: for a winning invocation, a non-empty flushed batch yields exactly
the input messages whose ids are not in the batch (original order) followed
by the single merged message; with distinct ids, every input message id then
appears exactly once across the standalone survivors and the merged
message's provenance list; an empty flushed batch returns the input
unchanged. -/
theorem winner_result_partition (w now : Nat) (msgs : List MastraMessageV2)
    (u : MastraMessageV2) (batch : List BatchedMessage) :
    (batch = [] → winnerResult w now msgs u batch = msgs) ∧
    (batch ≠ [] →
      winnerResult w now msgs u batch =
        msgs.filter (fun m => !(batch.any (fun e => e.id == m.id))) ++
          [mergeMessages w now batch u] ∧
      (∃ md, (mergeMessages w now batch u).content.metadata = some md ∧
        oget md "originalMessageIds" =
          some (.strList (batch.map (fun e => e.id))))) ∧
    ((msgs.map (fun m => m.id)).Nodup → (batch.map (fun e => e.id)).Nodup →
      ∀ m ∈ msgs,
        ((msgs.filter (fun m' => !(batch.any (fun e => e.id == m'.id)))).map
            (fun m' => m'.id) ++ batch.map (fun e => e.id)).count m.id = 1) ∧
    (∀ (o : RedisBatchingProcessorOptions) (st : Store) (now2 : Nat)
       (messages : List MastraMessageV2) (u2 : MastraMessageV2) (userId : String),
      lastUserMessage? messages = some u2 →
      userIdChain o.userIdResolver u2 = some userId →
      userId ≠ "" →
      st.existsKey (buildListKey o.keyPrefix userId ++ ":lock") = false →
      (processInput o .noFail st now2 messages).1 =
        .forward (winnerResult o.windowMs
          (awaitQuietWindow o.windowMs
            ((((st.rPush (buildListKey o.keyPrefix userId)
                  { id := u2.id, content := u2.content, createdAt := now2 }).pExpire
                (buildListKey o.keyPrefix userId) (o.windowMs * 3)).setStr
                  (buildListKey o.keyPrefix userId ++ ":lock") "1").setPttl
                (buildListKey o.keyPrefix userId ++ ":lock") (o.windowMs * 3))
            (buildListKey o.keyPrefix userId) now2).1
          messages u2
          (st.getList (buildListKey o.keyPrefix userId) ++
            [{ id := u2.id, content := u2.content, createdAt := now2 }]))) := by
  refine ⟨?_, ?_, ?_, ?_⟩
  · intro h
    simp [winnerResult, h]
  · intro h
    refine ⟨?_, _, rfl, ?_⟩
    · simp [winnerResult, List.isEmpty_iff, h]
    · rw [oget_oset_self]
  · intro hmsgs hbatch m hm
    have hmap : (msgs.filter (fun m' => !(batch.any (fun e => e.id == m'.id)))).map
        (fun m' => m'.id) =
        (msgs.map (fun m' => m'.id)).filter
          (fun s => !(batch.any (fun e => e.id == s))) := by
      rw [List.filter_map]
      rfl
    rw [hmap, List.count_append]
    by_cases hmem : m.id ∈ batch.map (fun e => e.id)
    · have hq : (!(batch.any (fun e => e.id == m.id))) = false := by
        simp only [Bool.not_eq_false', List.any_eq_true, beq_iff_eq]
        rcases List.mem_map.mp hmem with ⟨e, he, heid⟩
        exact ⟨e, he, heid⟩
      have h0 : ((msgs.map (fun m' => m'.id)).filter
          (fun s => !(batch.any (fun e => e.id == s)))).count m.id = 0 := by
        rw [List.count_eq_zero]
        intro hc
        have := List.of_mem_filter hc
        rw [hq] at this
        exact Bool.noConfusion this
      rw [h0, List.count_eq_one_of_mem hbatch hmem]
    · have hq : (!(batch.any (fun e => e.id == m.id))) = true := by
        simp only [Bool.not_eq_true', List.any_eq_false, beq_iff_eq]
        intro e he hc
        exact hmem (List.mem_map.mpr ⟨e, he, hc⟩)
      have hcf := @List.count_filter String _ _
        (fun s => !(batch.any (fun e => e.id == s))) m.id
        (msgs.map (fun m' => m'.id)) hq
      rw [hcf, List.count_eq_one_of_mem hmsgs (List.mem_map.mpr ⟨m, hm, rfl⟩),
        List.count_eq_zero.mpr hmem]
  · intro o st2 now2 messages u2 userId hu hid hne hlock
    have hfalse : (userId == "") = false := beq_eq_false_iff_ne.mpr hne
    have hemp := isEmpty_false_of_lastUser hu
    set listKey := buildListKey o.keyPrefix userId with hlk
    set lockKey := buildListKey o.keyPrefix userId ++ ":lock" with hlo
    have hknl : lockKey ≠ listKey := Ne.symm (key_ne_lock listKey)
    have hex : ((st2.rPush listKey
        { id := u2.id, content := u2.content, createdAt := now2 }).pExpire listKey
          (o.windowMs * 3)).existsKey lockKey = false := by
      rw [Store.existsKey_pExpire, existsKey_rPush_ne _ _ _ _ hknl]
      exact hlock
    have d1 : (FailPoint.noFail == FailPoint.failWait) = false := by decide
    have d2 : (FailPoint.noFail == FailPoint.failFlush) = false := by decide
    have d3 : (FailPoint.noFail == FailPoint.failLockDel) = false := by decide
    have d4 : (FailPoint.noFail == FailPoint.failMerge) = false := by decide
    have hlist : (((((st2.rPush listKey
        { id := u2.id, content := u2.content, createdAt := now2 }).pExpire listKey
          (o.windowMs * 3)).setStr lockKey "1").setPttl lockKey
            (o.windowMs * 3))).getList listKey =
        st2.getList listKey ++
          [{ id := u2.id, content := u2.content, createdAt := now2 }] := by
      rw [Store.getList_setPttl, Store.getList_setStr, Store.getList_pExpire,
        Store.getList_rPush_self]
    simp only [processInput, hemp, hu, hid, hfalse, Bool.false_eq_true, if_false,
      Store.setNX, hex, Bool.not_true, leaderSection, d1, d2, d3, d4, flushBatch,
      hlist]

/-- C2 witness. -/
theorem winner_result_partition_witness :
    winnerResult 4000 9 [userMsg, userMsgB] userMsgB [entryA, entryC] =
      [userMsgB].filter (fun m => !([entryA, entryC].any (fun e => e.id == m.id))) ++
        [userMsgB, mergeMessages 4000 9 [entryA, entryC] userMsgB].filter
          (fun m => m.id == (userMsgB.id ++ ":batched")) ∧
    (([userMsg, userMsgB].filter
        (fun m' => !([entryA, entryC].any (fun e => e.id == m'.id)))).map
        (fun m' => m'.id) ++ [entryA, entryC].map (fun e => e.id)).count userMsg.id = 1 ∧
    (processInput {} .noFail emptyStore 0 [userMsg]).1 =
      .forward (winnerResult 4000
        (awaitQuietWindow 4000
          ((((emptyStore.rPush (buildListKey "mastra:input-batch" "t1")
                { id := userMsg.id, content := userMsg.content, createdAt := 0 }).pExpire
              (buildListKey "mastra:input-batch" "t1") (4000 * 3)).setStr
                (buildListKey "mastra:input-batch" "t1" ++ ":lock") "1").setPttl
              (buildListKey "mastra:input-batch" "t1" ++ ":lock") (4000 * 3))
          (buildListKey "mastra:input-batch" "t1") 0).1
        [userMsg] userMsg
        (emptyStore.getList (buildListKey "mastra:input-batch" "t1") ++
          [{ id := userMsg.id, content := userMsg.content, createdAt := 0 }])) := by
  refine ⟨?_, ?_, ?_⟩
  · have h := (winner_result_partition 4000 9 [userMsg, userMsgB] userMsgB
      [entryA, entryC]).2.1 (by decide)
    rw [h.1]
    decide
  · exact (winner_result_partition 4000 9 [userMsg, userMsgB] userMsgB
      [entryA, entryC]).2.2.1 (by decide) (by decide) userMsg (by decide)
  · exact (winner_result_partition 4000 9 [userMsg, userMsgB] userMsgB
      [entryA, entryC]).2.2.2 {} emptyStore 0 [userMsg] userMsg "t1" rfl rfl
      (by decide) rfl

/-- C8: an invocation that reaches coordination first appends its batch entry
`{id, content, createdAt := now}` and refreshes the list TTL to
`3 × windowMs`, and only afterwards issues the lock conditional-set, which
also carries TTL `3 × windowMs`; consequently a caller that loses the
election has already durably appended its entry (and has refreshed both
TTLs).  The constructor default for `windowMs` is 4000 ms. -/
theorem append_precedes_election (o : RedisBatchingProcessorOptions)
    (fp : FailPoint) (st : Store) (now : Nat) (messages : List MastraMessageV2)
    (u : MastraMessageV2) (userId : String)
    (hu : lastUserMessage? messages = some u)
    (hid : userIdChain o.userIdResolver u = some userId)
    (hne : userId ≠ "") :
    (∃ rest, (processInput o fp st now messages).2.2 =
      [.connect,
       .rPush (buildListKey o.keyPrefix userId)
         { id := u.id, content := u.content, createdAt := now },
       .pExpire (buildListKey o.keyPrefix userId) (o.windowMs * 3),
       .setNX (buildListKey o.keyPrefix userId ++ ":lock") "1" (o.windowMs * 3)]
        ++ rest) ∧
    (st.existsKey (buildListKey o.keyPrefix userId ++ ":lock") = true →
      (processInput o fp st now messages).1 = .aborted "redis-batching:pending" ∧
      (processInput o fp st now messages).2.1.getList (buildListKey o.keyPrefix userId) =
        st.getList (buildListKey o.keyPrefix userId) ++
          [{ id := u.id, content := u.content, createdAt := now }] ∧
      (processInput o fp st now messages).2.1.getPttl (buildListKey o.keyPrefix userId) =
        some (o.windowMs * 3) ∧
      (processInput o fp st now messages).2.1.getPttl
        (buildListKey o.keyPrefix userId ++ ":lock") = some (o.windowMs * 3)) ∧
    ({} : RedisBatchingProcessorOptions).windowMs = 4000 := by
  have hfalse : (userId == "") = false := beq_eq_false_iff_ne.mpr hne
  have hemp := isEmpty_false_of_lastUser hu
  set listKey := buildListKey o.keyPrefix userId with hlk
  set lockKey := buildListKey o.keyPrefix userId ++ ":lock" with hlo
  have hknl : lockKey ≠ listKey := Ne.symm (key_ne_lock listKey)
  simp only [processInput, hemp, hu, hid, hfalse, Bool.false_eq_true, if_false]
  by_cases hlock : st.existsKey lockKey = true
  · have hex : ((st.rPush listKey
        { id := u.id, content := u.content, createdAt := now }).pExpire listKey
          (o.windowMs * 3)).existsKey lockKey = true := by
      rw [Store.existsKey_pExpire, existsKey_rPush_ne _ _ _ _ hknl]
      exact hlock
    simp only [Store.setNX, hex, if_true, Bool.not_false]
    refine ⟨⟨[StoreOp.pExpire (buildListKey o.keyPrefix userId ++ ":lock") (o.windowMs * 3)],
        by simp⟩, fun _ => ⟨trivial, ?_, ?_, ?_⟩, trivial⟩
    · rw [Store.getList_pExpire, Store.getList_pExpire, Store.getList_rPush_self]
    · rw [Store.getPttl_pExpire_ne _ _ _ _ (key_ne_lock listKey),
        Store.getPttl_pExpire_self _ _ _ (existsKey_rPush_self st listKey _)]
    · exact Store.getPttl_pExpire_self _ _ _ hex
  · have hex : ((st.rPush listKey
        { id := u.id, content := u.content, createdAt := now }).pExpire listKey
          (o.windowMs * 3)).existsKey lockKey = false := by
      rw [Store.existsKey_pExpire, existsKey_rPush_ne _ _ _ _ hknl]
      exact Bool.eq_false_iff.mpr hlock
    simp only [Store.setNX, hex, Bool.false_eq_true, if_false, Bool.not_true]
    refine ⟨?_, fun hc => absurd hc hlock, trivial⟩
    obtain ⟨rest, hrest⟩ := leaderSection_ops_prefix o fp
      (((st.rPush listKey { id := u.id, content := u.content, createdAt := now }).pExpire
        listKey (o.windowMs * 3)).setStr lockKey "1" |>.setPttl lockKey (o.windowMs * 3))
      now messages u listKey lockKey
      ([StoreOp.connect] ++
        [StoreOp.rPush listKey { id := u.id, content := u.content, createdAt := now },
         StoreOp.pExpire listKey (o.windowMs * 3),
         StoreOp.setNX lockKey "1" (o.windowMs * 3)])
    exact ⟨rest, by rw [hrest]; simp⟩

/-- C8 witness. -/
theorem append_precedes_election_witness :
    (processInput {} .noFail lockedStore 3 [userMsg]).1 =
      .aborted "redis-batching:pending" ∧
    (processInput {} .noFail lockedStore 3 [userMsg]).2.1.getList "mastra:input-batch:t1" =
      lockedStore.getList "mastra:input-batch:t1" ++
        [{ id := "m1", content := userMsg.content, createdAt := 3 }] := by
  have h := append_precedes_election {} .noFail lockedStore 3 [userMsg] userMsg "t1"
    rfl rfl (by decide)
  exact ⟨(h.2.1 (by decide)).1, (h.2.1 (by decide)).2.1⟩

/-- On any injected failure, the leader section rethrows only after deleting
the lock key. -/
theorem leaderSection_fail_releases_lock (o : RedisBatchingProcessorOptions)
    (fp : FailPoint) (st : Store) (now : Nat) (messages : List MastraMessageV2)
    (u : MastraMessageV2) (listKey lockKey : String) (ops : List StoreOp)
    (hfp : fp ≠ .noFail) :
    (∃ e, (leaderSection o fp st now messages u listKey lockKey ops).1 = .threw e) ∧
    (leaderSection o fp st now messages u listKey lockKey ops).2.1.getStr lockKey =
      none := by
  cases fp with
  | noFail => exact absurd rfl hfp
  | failWait => exact ⟨⟨"quiet-window", rfl⟩, Store.getStr_del_self _ _⟩
  | failFlush =>
    refine ⟨⟨"flush", ?_⟩, ?_⟩ <;>
      simp [leaderSection, Store.getStr_del_self]
  | failLockDel =>
    refine ⟨⟨"lock-del", ?_⟩, ?_⟩ <;>
      simp [leaderSection, Store.getStr_del_self]
  | failMerge =>
    refine ⟨⟨"merge", ?_⟩, ?_⟩ <;>
      simp [leaderSection, Store.getStr_del_self]

/-- C7: when the election is won and any error is thrown during the
quiet-window wait, the flush, or the merge, the lock key has been deleted
from the store by the time the error propagates. -/
theorem error_path_releases_lock (o : RedisBatchingProcessorOptions)
    (fp : FailPoint) (st : Store) (now : Nat) (messages : List MastraMessageV2)
    (u : MastraMessageV2) (userId : String)
    (hu : lastUserMessage? messages = some u)
    (hid : userIdChain o.userIdResolver u = some userId)
    (hne : userId ≠ "")
    (hlock : st.existsKey (buildListKey o.keyPrefix userId ++ ":lock") = false)
    (hfp : fp ≠ .noFail) :
    (∃ e, (processInput o fp st now messages).1 = .threw e) ∧
    (processInput o fp st now messages).2.1.getStr
      (buildListKey o.keyPrefix userId ++ ":lock") = none := by
  have hfalse : (userId == "") = false := beq_eq_false_iff_ne.mpr hne
  have hemp := isEmpty_false_of_lastUser hu
  set listKey := buildListKey o.keyPrefix userId with hlk
  set lockKey := buildListKey o.keyPrefix userId ++ ":lock" with hlo
  have hknl : lockKey ≠ listKey := Ne.symm (key_ne_lock listKey)
  have hex : ((st.rPush listKey
      { id := u.id, content := u.content, createdAt := now }).pExpire listKey
        (o.windowMs * 3)).existsKey lockKey = false := by
    rw [Store.existsKey_pExpire, existsKey_rPush_ne _ _ _ _ hknl]
    exact hlock
  simp only [processInput, hemp, hu, hid, hfalse, Bool.false_eq_true, if_false,
    Store.setNX, hex, Bool.not_true]
  exact leaderSection_fail_releases_lock o fp _ now messages u listKey lockKey _ hfp

/-- C7 witness. -/
theorem error_path_releases_lock_witness :
    (∃ e, (processInput {} .failWait emptyStore 0 [userMsg]).1 = .threw e) ∧
    (processInput {} .failWait emptyStore 0 [userMsg]).2.1.getStr
      (buildListKey "mastra:input-batch" "t1" ++ ":lock") = none :=
  error_path_releases_lock {} .failWait emptyStore 0 [userMsg] userMsg "t1"
    rfl rfl (by decide) rfl (by decide)

/-- The leader section never invokes the cooperative abort. -/
theorem leaderSection_ne_aborted (o : RedisBatchingProcessorOptions)
    (fp : FailPoint) (st : Store) (now : Nat) (messages : List MastraMessageV2)
    (u : MastraMessageV2) (listKey lockKey : String) (ops : List StoreOp) (r : String) :
    (leaderSection o fp st now messages u listKey lockKey ops).1 ≠ .aborted r := by
  cases fp <;> simp [leaderSection]

/-- C5 counterexample: the pipeline's actual abort reason strings are
`"redis-stop:active"` and `"redis-batching:pending"`, not `"stop-active"`
and `"batching-pending"`. -/
theorem abort_reason_strings_counterexample :
    (stopProcessInput {} stopFlagStore [userMsg]).1 = .aborted "redis-stop:active" ∧
    "redis-stop:active" ≠ "stop-active" ∧
    (processInput {} .noFail lockedStore 3 [userMsg]).1 =
      .aborted "redis-batching:pending" ∧
    "redis-batching:pending" ≠ "batching-pending" :=
  ⟨by decide, by decide, by decide, by decide⟩

/-- C5 amended: the stop gate aborts only with reason `"redis-stop:active"`
and the batching coordinator aborts only with reason
`"redis-batching:pending"`; these are the pipeline's only abort reasons. -/
theorem abort_reasons_exhaustive (o : RedisBatchingProcessorOptions)
    (o' : RedisStopProcessorOptions) (fp : FailPoint) (st st' : Store) (now : Nat)
    (messages messages' : List MastraMessageV2) (r r' : String) :
    ((processInput o fp st now messages).1 = .aborted r →
      r = "redis-batching:pending") ∧
    ((stopProcessInput o' st' messages').1 = .aborted r' →
      r' = "redis-stop:active") := by
  constructor
  · intro h
    unfold processInput at h
    split at h
    · exact absurd h (by simp)
    · split at h
      · exact absurd h (by simp)
      · split at h
        · exact absurd h (by simp)
        · split at h
          · exact absurd h (by simp)
          · dsimp only at h
            split at h
            · exact (ProcResult.aborted.inj h).symm
            · exact absurd h (leaderSection_ne_aborted _ _ _ _ _ _ _ _ _ _)
  · intro h
    unfold stopProcessInput at h
    split at h
    · exact absurd h (by simp)
    · split at h
      · exact absurd h (by simp)
      · split at h
        · exact absurd h (by simp)
        · split at h
          · exact absurd h (by simp)
          · dsimp only at h
            split at h
            · exact (ProcResult.aborted.inj h).symm
            · exact absurd h (by simp)

/-- C5 amended-claim witness. -/
theorem abort_reasons_exhaustive_witness :
    (stopProcessInput {} stopFlagStore [userMsg]).1 = .aborted "redis-stop:active" →
      "redis-stop:active" = "redis-stop:active" :=
  (abort_reasons_exhaustive {} {} .noFail emptyStore stopFlagStore 0 [] [userMsg]
    "redis-batching:pending" "redis-stop:active").2

/-- C4 counterexample: a supplied resolver returning the empty string.  Under
"first non-empty result wins" the key would be the thread id `"t1"`, whose
stop flag is set and whose batch lock is held, so both gates would act; the
code's `??` chain instead stops at the defined-but-empty resolver result and
both gates pass the input through untouched. -/
theorem resolver_chain_counterexample :
    userIdChain (some (fun _ => some "")) userMsg = some "" ∧
    specResolveUserId (some (fun _ => some "")) userMsg = some "t1" ∧
    defaultIsStopped (stopFlagStore.getStr ("mastra:input-stop" ++ ":" ++ "t1")) = true ∧
    (stopProcessInput { userIdResolver := some (fun _ => some "") } stopFlagStore
      [userMsg]).1 = .forward [userMsg] ∧
    (processInput { userIdResolver := some (fun _ => some "") } .noFail lockedStore 3
      [userMsg]).1 = .forward [userMsg] :=
  ⟨rfl, by decide, by decide, by decide, by decide⟩

/-- C4 amended: the conversation identifier is the first DEFINED result of
the chain resolver → threadId → resourceId → metadata userId (nullish
coalescing); when that result is the empty string, or every candidate is
undefined, both gates are no-ops returning the input unchanged (store
untouched, nothing issued after the connection). -/
theorem resolver_chain_amended (f : MastraMessageV2 → Option String)
    (m : MastraMessageV2) (s : String) (o : RedisBatchingProcessorOptions)
    (o' : RedisStopProcessorOptions) (fp : FailPoint) (st st' : Store) (now : Nat)
    (messages : List MastraMessageV2) (u : MastraMessageV2) :
    (f m = some s → userIdChain (some f) m = some s) ∧
    (f m = none → userIdChain (some f) m = userIdChain none m) ∧
    (m.threadId = some s → userIdChain none m = some s) ∧
    (m.threadId = none → m.resourceId = some s → userIdChain none m = some s) ∧
    (m.threadId = none → m.resourceId = none →
      userIdChain none m =
        (m.content.metadata.bind (fun md => oget md "userId")).bind metaValAsString?) ∧
    (lastUserMessage? messages = some u →
      (userIdChain o.userIdResolver u = none ∨ userIdChain o.userIdResolver u = some "") →
      processInput o fp st now messages = (.forward messages, st, [.connect])) ∧
    (lastUserMessage? messages = some u →
      (userIdChain o'.userIdResolver u = none ∨ userIdChain o'.userIdResolver u = some "") →
      stopProcessInput o' st' messages = (.forward messages, [.connect])) := by
  refine ⟨?_, ?_, ?_, ?_, ?_, ?_, ?_⟩
  · intro h; simp [userIdChain, h, Option.orElse]
  · intro h; simp [userIdChain, h, Option.orElse]
  · intro h; simp [userIdChain, h, Option.orElse]
  · intro h1 h2; simp [userIdChain, h1, h2, Option.orElse]
  · intro h1 h2; simp [userIdChain, h1, h2, Option.orElse]
  · intro hu hid
    have hemp := isEmpty_false_of_lastUser hu
    rcases hid with hid | hid <;>
      simp [processInput, hemp, hu, hid]
  · intro hu hid
    have hemp := isEmpty_false_of_lastUser hu
    rcases hid with hid | hid <;>
      simp [stopProcessInput, hemp, hu, hid]

/-- C4 amended-claim witness. -/
theorem resolver_chain_amended_witness :
    userIdChain (some (fun _ => some "r1")) userMsg = some "r1" ∧
    stopProcessInput { userIdResolver := some (fun _ => some "") } stopFlagStore
      [userMsg] = (.forward [userMsg], [.connect]) := by
  have h := resolver_chain_amended (fun _ => some "r1") userMsg "r1"
    {} { userIdResolver := some (fun _ => some "") } .noFail emptyStore stopFlagStore 0
    [userMsg] userMsg
  exact ⟨h.1 rfl, h.2.2.2.2.2.2 rfl (Or.inr rfl)⟩

/-- The leader section's final store and trace do not depend on the caller's
message list (only the forwarded result does). -/
theorem leaderSection_snd_indep (o : RedisBatchingProcessorOptions)
    (fp : FailPoint) (st : Store) (now : Nat)
    (ms1 ms2 : List MastraMessageV2) (u : MastraMessageV2)
    (listKey lockKey : String) (ops : List StoreOp) :
    (leaderSection o fp st now ms1 u listKey lockKey ops).2 =
      (leaderSection o fp st now ms2 u listKey lockKey ops).2 := by
  cases fp <;> rfl

/-- C10: with no user-role message (in particular an empty input) both
processors return the input unchanged, leave the store untouched, and issue
no store operation at all; and when a user message exists, all coordination
effects — the final store, the operations issued, and the stop gate's abort
decision — depend only on the last user-role message of the sequence. -/
theorem no_user_frame_and_dependence (o : RedisBatchingProcessorOptions)
    (o' : RedisStopProcessorOptions) (fp : FailPoint) (st st' : Store) (now : Nat)
    (messages ms1 ms2 : List MastraMessageV2) (u : MastraMessageV2) :
    (lastUserMessage? messages = none →
      processInput o fp st now messages = (.forward messages, st, []) ∧
      stopProcessInput o' st' messages = (.forward messages, [])) ∧
    (lastUserMessage? ms1 = some u → lastUserMessage? ms2 = some u →
      (processInput o fp st now ms1).2 = (processInput o fp st now ms2).2 ∧
      (stopProcessInput o' st' ms1).2 = (stopProcessInput o' st' ms2).2 ∧
      ∀ r, ((stopProcessInput o' st' ms1).1 = .aborted r ↔
            (stopProcessInput o' st' ms2).1 = .aborted r)) := by
  constructor
  · intro h
    constructor
    · by_cases hemp : messages.isEmpty <;> simp [processInput, hemp, h]
    · by_cases hemp : messages.isEmpty <;> simp [stopProcessInput, hemp, h]
  · intro h1 h2
    have he1 := isEmpty_false_of_lastUser h1
    have he2 := isEmpty_false_of_lastUser h2
    refine ⟨?_, ?_, ?_⟩
    · simp only [processInput, he1, he2, h1, h2, Bool.false_eq_true, if_false]
      cases hC : userIdChain o.userIdResolver u with
      | none => rfl
      | some uid =>
        by_cases hu0 : (uid == "") = true
        · simp [hu0]
        · simp only [hu0, Bool.false_eq_true, if_false]
          split
          · rfl
          · exact leaderSection_snd_indep o fp _ now ms1 ms2 u _ _ _
    · simp only [stopProcessInput, he1, he2, h1, h2, Bool.false_eq_true, if_false]
      cases hC : userIdChain o'.userIdResolver u with
      | none => rfl
      | some uid =>
        by_cases hu0 : (uid == "") = true
        · simp [hu0]
        · simp only [hu0, Bool.false_eq_true, if_false]
          split <;> rfl
    · intro r
      simp only [stopProcessInput, he1, he2, h1, h2, Bool.false_eq_true, if_false]
      cases hC : userIdChain o'.userIdResolver u with
      | none => simp
      | some uid =>
        by_cases hu0 : (uid == "") = true
        · simp [hu0]
        · simp only [hu0, Bool.false_eq_true, if_false]
          split <;> simp

/-- C10 witness. -/
theorem no_user_frame_and_dependence_witness :
    processInput {} .noFail emptyStore 0 [assistantMsg] =
      (.forward [assistantMsg], emptyStore, []) ∧
    (stopProcessInput {} stopFlagStore [userMsg]).2 =
      (stopProcessInput {} stopFlagStore [assistantMsg, userMsg]).2 := by
  constructor
  · exact (no_user_frame_and_dependence {} {} .noFail emptyStore emptyStore 0
      [assistantMsg] [] [] userMsg).1 (by decide) |>.1
  · exact ((no_user_frame_and_dependence {} {} .noFail emptyStore stopFlagStore 0
      [] [userMsg] [assistantMsg, userMsg] userMsg).2 (by decide) (by decide)).2.1

/-- Once the lock value is in place, every further election attempt fails and
leaves the lock value unchanged. -/
theorem runElections_lock_held (w : Nat) (lockKey : String) (st : Store) (m : Nat)
    (v : String) (h : st.getStr lockKey = some v) :
    (runElections w lockKey st m).1 = List.replicate m false ∧
    (runElections w lockKey st m).2.getStr lockKey = some v := by
  induction m generalizing st with
  | zero => exact ⟨rfl, h⟩
  | succ n ih =>
    have hex : st.existsKey lockKey = true := Store.existsKey_of_getStr st lockKey v h
    have he : electStep w lockKey st = (false, st.pExpire lockKey (w * 3)) := by
      simp [electStep, Store.setNX, hex]
    have h' : (st.pExpire lockKey (w * 3)).getStr lockKey = some v := by
      rw [Store.getStr_pExpire]; exact h
    obtain ⟨ha, hb⟩ := ih (st.pExpire lockKey (w * 3)) h'
    constructor
    · simp only [runElections, he, ha, List.replicate_succ]
    · simp only [runElections, he, hb]

/-- C1: among any number of concurrent invocations racing for the same
conversation's lock within one TTL period (serialized in store-arrival
order as each attempt is a single atomic conditional-set), exactly the first
attempt's conditional-set succeeds — every later attempt fails — and the
lock survives with value `"1"`; moreover any invocation that finds the lock
already present refreshes its expiry to `3 × windowMs` and aborts with the
pending signal. -/
theorem at_most_one_leader (w : Nat) (lockKey : String) (st : Store) (n : Nat)
    (hlock : st.existsKey lockKey = false) (hn : 1 ≤ n) :
    (runElections w lockKey st n).1 = true :: List.replicate (n - 1) false ∧
    (runElections w lockKey st n).1.count true = 1 ∧
    (runElections w lockKey st n).2.getStr lockKey = some "1" ∧
    (∀ (o : RedisBatchingProcessorOptions) (fp : FailPoint) (st' : Store) (now : Nat)
       (messages : List MastraMessageV2) (u : MastraMessageV2) (userId : String),
      lastUserMessage? messages = some u →
      userIdChain o.userIdResolver u = some userId →
      userId ≠ "" →
      st'.existsKey (buildListKey o.keyPrefix userId ++ ":lock") = true →
      (processInput o fp st' now messages).1 = .aborted "redis-batching:pending" ∧
      (processInput o fp st' now messages).2.1.getPttl
        (buildListKey o.keyPrefix userId ++ ":lock") = some (o.windowMs * 3)) := by
  cases n with
  | zero => exact absurd hn (by omega)
  | succ m =>
    have he : electStep w lockKey st =
        (true, (st.setStr lockKey "1").setPttl lockKey (w * 3)) := by
      simp [electStep, Store.setNX, hlock]
    have hv : ((st.setStr lockKey "1").setPttl lockKey (w * 3)).getStr lockKey =
        some "1" := by
      rw [Store.getStr_setPttl, Store.getStr_setStr_self]
    obtain ⟨ha, hb⟩ := runElections_lock_held w lockKey
      ((st.setStr lockKey "1").setPttl lockKey (w * 3)) m "1" hv
    refine ⟨?_, ?_, ?_, ?_⟩
    · simp only [runElections, he, ha, Nat.add_sub_cancel]
    · simp only [runElections, he, ha, List.count_cons, List.count_replicate]
      simp
    · simp only [runElections, he, hb]
    · intro o fp st' now messages u userId hu hid hne hl
      have hfalse : (userId == "") = false := beq_eq_false_iff_ne.mpr hne
      have hemp := isEmpty_false_of_lastUser hu
      set listKey := buildListKey o.keyPrefix userId with hlk
      set lk := buildListKey o.keyPrefix userId ++ ":lock" with hlo
      have hknl : lk ≠ listKey := Ne.symm (key_ne_lock listKey)
      have hex : ((st'.rPush listKey
          { id := u.id, content := u.content, createdAt := now }).pExpire listKey
            (o.windowMs * 3)).existsKey lk = true := by
        rw [Store.existsKey_pExpire, existsKey_rPush_ne _ _ _ _ hknl]
        exact hl
      simp only [processInput, hemp, hu, hid, hfalse, Bool.false_eq_true, if_false,
        Store.setNX, hex, if_true, Bool.not_false]
      exact ⟨trivial, Store.getPttl_pExpire_self _ _ _ hex⟩

/-- C1 witness. -/
theorem at_most_one_leader_witness :
    (runElections 4000 "mastra:input-batch:t1:lock" emptyStore 3).1 =
      [true, false, false] ∧
    (processInput {} .noFail lockedStore 3 [userMsg]).1 =
      .aborted "redis-batching:pending" := by
  have h := at_most_one_leader 4000 "mastra:input-batch:t1:lock" emptyStore 3
    rfl (by decide)
  refine ⟨h.1.trans (by decide), ?_⟩
  exact (h.2.2.2 {} .noFail lockedStore 3 [userMsg] userMsg "t1" rfl rfl
    (by decide) (by decide)).1

/-- In a strictly sorted list, the last element bounds every element. -/
theorem pairwise_lt_le_getLast {l : List Nat} {c : Nat}
    (hp : l.Pairwise (· < ·)) (hlast : l.getLast? = some c) :
    ∀ a ∈ l, a ≤ c := by
  induction l with
  | nil => intro a ha; cases ha
  | cons x xs ih =>
    rcases List.pairwise_cons.mp hp with ⟨hx, hxs⟩
    intro a ha
    cases xs with
    | nil =>
      have : x = c := by simpa using hlast
      rcases List.mem_singleton.mp ha with rfl
      omega
    | cons y ys =>
      rw [List.getLast?_cons_cons] at hlast
      have hall := ih hxs hlast
      rcases List.mem_cons.mp ha with rfl | ha'
      · have hyc : y ≤ c := hall y (List.mem_cons_self y ys)
        have hxy : a < y := hx y (List.mem_cons_self y ys)
        omega
      · exact hall a ha'

/-- The tail read is an arrival no later than the read time. -/
theorem tailAt_spec {arrivals : List Nat} {t c : Nat}
    (h : tailAt arrivals t = some c) : c ∈ arrivals ∧ c ≤ t := by
  rcases List.getLast?_eq_some_iff.mp h with ⟨ys, hys⟩
  have hc : c ∈ arrivals.filter (fun a => decide (a ≤ t)) := by
    rw [hys]; exact List.mem_append_right ys (List.mem_singleton_self c)
  rcases List.mem_filter.mp hc with ⟨h1, h2⟩
  exact ⟨h1, by simpa using h2⟩

/-- An arrival at or before the read time makes the tail read defined. -/
theorem tailAt_isSome_of_mem {arrivals : List Nat} {a t : Nat}
    (ha : a ∈ arrivals) (hle : a ≤ t) : ∃ c, tailAt arrivals t = some c := by
  have hmem : a ∈ arrivals.filter (fun a => decide (a ≤ t)) :=
    List.mem_filter_of_mem ha (by simpa using hle)
  cases h : (arrivals.filter (fun a => decide (a ≤ t))).getLast? with
  | none => exact absurd (List.getLast?_eq_none_iff.mp h) (List.ne_nil_of_mem hmem)
  | some c => exact ⟨c, h⟩

/-- In a sorted schedule the tail read is the largest arrival `≤ t`. -/
theorem tailAt_max {arrivals : List Nat} (hp : arrivals.Pairwise (· < ·))
    {t c a : Nat} (h : tailAt arrivals t = some c) (ha : a ∈ arrivals)
    (hat : a ≤ t) : a ≤ c := by
  have hmem : a ∈ arrivals.filter (fun a => decide (a ≤ t)) :=
    List.mem_filter_of_mem ha (by simpa using hat)
  exact pairwise_lt_le_getLast (hp.filter _) h a hmem

/-- A chain element other than the last has a successor related to it. -/
theorem chain'_succ_of_ne_last {R : Nat → Nat → Prop} {l : List Nat} {c tn : Nat}
    (hch : l.Chain' R) (hc : c ∈ l) (hlast : l.getLast? = some tn)
    (hne : c ≠ tn) : ∃ d, d ∈ l ∧ R c d := by
  induction l with
  | nil => cases hc
  | cons x xs ih =>
    cases xs with
    | nil =>
      rcases List.mem_singleton.mp hc with rfl
      have : c = tn := by simpa using hlast
      exact absurd this hne
    | cons y ys =>
      rcases List.chain'_cons.mp hch with ⟨hxy, hch'⟩
      rw [List.getLast?_cons_cons] at hlast
      rcases List.mem_cons.mp hc with rfl | hc'
      · exact ⟨y, List.mem_cons_of_mem c (List.mem_cons_self y ys), hxy⟩
      · rcases ih hch' hc' hlast with ⟨d, hd, hr⟩
        exact ⟨d, List.mem_cons_of_mem x hd, hr⟩

/-- C3: the quiet-window loop returns immediately on an empty list; it never
returns while less than `windowMs` has elapsed since the tail entry's
enqueue time; between polls it sleeps exactly `min(remaining, 250)`; and for
an arrival schedule `t1 < … < tn` with inter-arrival gaps `< windowMs`, a
leader polling from inside the window returns exactly at `tn + windowMs`. -/
theorem quiet_window_correct (w : Nat) :
    (∀ (lastAt : Nat → Option Nat) (now fuel : Nat), lastAt now = none →
      awaitQuietWindowSched w lastAt now (fuel + 1) = some now) ∧
    (∀ (lastAt : Nat → Option Nat) (fuel now r c : Nat),
      awaitQuietWindowSched w lastAt now fuel = some r → lastAt r = some c →
      c + w ≤ r) ∧
    (∀ (lastAt : Nat → Option Nat) (fuel now c : Nat), lastAt now = some c →
      (0 : Int) < (w : Int) - ((now : Int) - (c : Int)) →
      awaitQuietWindowSched w lastAt now (fuel + 1) =
        awaitQuietWindowSched w lastAt
          (now + (min ((w : Int) - ((now : Int) - (c : Int))) 250).toNat) fuel) ∧
    (∀ (arrivals : List Nat) (tn fuel now : Nat),
      arrivals.Chain' (fun a b => a < b ∧ b < a + w) →
      arrivals.getLast? = some tn →
      (∃ c, tailAt arrivals now = some c ∧ now ≤ c + w) →
      tn + w + 1 ≤ now + fuel →
      awaitQuietWindowSched w (tailAt arrivals) now fuel = some (tn + w)) := by
  refine ⟨?_, ?_, ?_, ?_⟩
  · intro lastAt now fuel h
    simp [awaitQuietWindowSched, h]
  · intro lastAt fuel
    induction fuel with
    | zero =>
      intro now r c h _
      exact absurd h (by simp [awaitQuietWindowSched])
    | succ n ih =>
      intro now r c h hc
      cases hl : lastAt now with
      | none =>
        simp only [awaitQuietWindowSched, hl] at h
        have hr : now = r := Option.some.inj h
        rw [← hr, hl] at hc
        cases hc
      | some c0 =>
        simp only [awaitQuietWindowSched, hl] at h
        split at h
        · have hr : now = r := Option.some.inj h
          subst hr
          have hcc : c0 = c := Option.some.inj (hl ▸ hc)
          subst hcc
          rename_i hcond
          omega
        · exact ih _ r c h hc
  · intro lastAt fuel now c h hpos
    simp only [awaitQuietWindowSched, h]
    rw [if_neg (by omega)]
  · intro arrivals tn fuel
    induction fuel with
    | zero =>
      intro now hch hlast hstart hfuel
      rcases hstart with ⟨c0, hc0, hle⟩
      have hsort : arrivals.Pairwise (· < ·) :=
        List.chain'_iff_pairwise.mp (hch.imp (fun a b hab => hab.1))
      have hcm := (tailAt_spec hc0).1
      have hctn : c0 ≤ tn := pairwise_lt_le_getLast hsort hlast c0 hcm
      omega
    | succ n ih =>
      intro now hch hlast hstart hfuel
      rcases hstart with ⟨c0, hc0, hle⟩
      have hsort : arrivals.Pairwise (· < ·) :=
        List.chain'_iff_pairwise.mp (hch.imp (fun a b hab => hab.1))
      have hcm := (tailAt_spec hc0).1
      simp only [awaitQuietWindowSched, hc0]
      by_cases hr : (w : Int) - ((now : Int) - (c0 : Int)) ≤ 0
      · rw [if_pos hr]
        have hnow : now = c0 + w := by omega
        by_cases hne : c0 = tn
        · subst hne
          rw [hnow]
        · exfalso
          rcases chain'_succ_of_ne_last hch hcm hlast hne with ⟨d, hdm, hlt, hgap⟩
          have hdle : d ≤ now := by omega
          have := tailAt_max hsort hc0 hdm hdle
          omega
      · rw [if_neg hr]
        have hs1 : 1 ≤ (min ((w : Int) - ((now : Int) - (c0 : Int))) 250).toNat := by
          have h1 : (1 : Int) ≤ min ((w : Int) - ((now : Int) - (c0 : Int))) 250 :=
            le_min (by omega) (by norm_num)
          omega
        have hsle : ((min ((w : Int) - ((now : Int) - (c0 : Int))) 250).toNat : Int) ≤
            (w : Int) - ((now : Int) - (c0 : Int)) := by
          have := min_le_left ((w : Int) - ((now : Int) - (c0 : Int))) (250 : Int)
          omega
        apply ih
        · exact hch
        · exact hlast
        · have hcnow : c0 ≤ now := (tailAt_spec hc0).2
          rcases tailAt_isSome_of_mem hcm
              (Nat.le_trans hcnow (Nat.le_add_right now _)) with ⟨c1, hc1⟩
          refine ⟨c1, hc1, ?_⟩
          have hcc1 : c0 ≤ c1 :=
            tailAt_max hsort hc1 hcm (Nat.le_trans hcnow (Nat.le_add_right now _))
          omega
        · omega

/-- C3 witness: the spec's scenario — `windowMs = 1000`, arrivals at 0, 400
and 900 — flushes exactly at 1900. -/
theorem quiet_window_correct_witness :
    awaitQuietWindowSched 1000 (tailAt [0, 400, 900]) 0 1901 = some 1900 :=
  (quiet_window_correct 1000).2.2.2 [0, 400, 900] 900 1901 0
    (by norm_num [List.chain'_cons]) (by decide)
    ⟨0, by decide, by decide⟩ (by decide)
